import Mathlib

/-!
Shallow embedding of the edgar-crawler pipeline (`src/run.py`, with the
alternative spider implementation in `src/edgar_crawler/spiders/exhibit_spider.py`
as secondary evidence) together with theorems settling the frozen claims.

Conventions of the embedding:
* Raw byte strings (HTTP bodies, file contents) are modelled as `String`.
* A fallible fetch is `Option String` (`none` = the `None` failure signal).
* The third-party `cachier` memoization decorator is not under `src/`; its
  behaviour is modelled from the spec (sections 3 and 4.2) where marked
  `Modelled from the spec:`.
* The HTML parser (BeautifulSoup) and the zip archive reader are external
  capabilities per the spec's scope section; they enter the model as
  function parameters producing already-structured data.
* Stateful pieces (the persisted fetch cache, per-URL request counts, the
  output directory) are threaded explicitly as state values.
* The unbounded `while` retry loops are modelled with an explicit fuel
  argument counting loop passes; a `none` result means the loop was still
  running after that many passes (the observable "blocked" state).
-/

/-! ### String primitives (models of the Python string operations used) -/

/-- Code-point lexicographic "less than" on character lists, the order Python's
`sorted` uses for `str` values. -/
def listLexLt : List Char → List Char → Bool
  | [], [] => false
  | [], _ :: _ => true
  | _ :: _, [] => false
  | a :: as, b :: bs =>
    if a.toNat < b.toNat then true
    else if b.toNat < a.toNat then false
    else listLexLt as bs

/-- Lexicographic "less than" on strings by code points (Python `str <`). -/
def strLt (s t : String) : Bool := listLexLt s.data t.data

/-- Insert a string into a sorted list, keeping it sorted (helper of `sortStrs`). -/
def sortInsert (x : String) : List String → List String
  | [] => [x]
  | y :: ys => if strLt x y then x :: y :: ys else y :: sortInsert x ys

/-- Model of Python's `sorted` on a list of strings (insertion sort; any
correct sort of strings returns the same list of values). -/
def sortStrs (l : List String) : List String := l.foldr sortInsert []

/-- Model of Python's `str.upper` (ASCII case mapping; `run.py` line 194
`doc_type.text.upper()`). -/
def upperStr (s : String) : String := ⟨s.data.map Char.toUpper⟩

/-- Model of Python's `str.startswith` (`run.py` line 194). -/
def startsWithStr (p s : String) : Bool := p.data.isPrefixOf s.data

/-- Model of `line.rsplit("|", 1)[-1]` (`run.py` line 66): the substring after
the last `"|"`, or the whole string when no `"|"` occurs. -/
def lastFieldBar (s : String) : String :=
  ⟨(s.data.reverse.takeWhile (fun c => c ≠ '|')).reverse⟩

/-- Helper of `pyReplace`: fuelled scan replacing leftmost, non-overlapping
occurrences of `pat` by `rep`, exactly as Python's `str.replace` does for a
non-empty pattern.  The fuel is instantiated with the string length, which is
always enough because each step consumes at least one character. -/
def replaceAux (pat rep : List Char) : Nat → List Char → List Char
  | _, [] => []
  | 0, l => l
  | fuel + 1, c :: rest =>
    if (!pat.isEmpty) && pat.isPrefixOf (c :: rest) then
      rep ++ replaceAux pat rep fuel (List.drop pat.length (c :: rest))
    else
      c :: replaceAux pat rep fuel rest

/-- Model of Python's `str.replace(pat, rep)` for a non-empty `pat`: every
leftmost, non-overlapping occurrence of `pat` is replaced by `rep`
(`run.py` lines 66-68, `exhibit_spider.py` line 54). -/
def pyReplace (s pat rep : String) : String :=
  ⟨replaceAux pat.data rep.data s.data.length s.data⟩

/-- Model of Python's `str.strip()` (`run.py` line 62): drop whitespace at
both ends. -/
def pyStrip (s : String) : String :=
  ⟨((s.data.dropWhile Char.isWhitespace).reverse.dropWhile Char.isWhitespace).reverse⟩

/-- Model of `line.split("|")` (`filter_indices`, `run.py` line 160 and
`exhibit_spider.py` line 50): split on `'|'`, keeping empty fields. -/
def splitBar : List Char → List (List Char)
  | [] => [[]]
  | c :: rest =>
    let r := splitBar rest
    if c = '|' then [] :: r
    else
      match r with
      | [] => [[c]]
      | f :: fs => (c :: f) :: fs

/-- String-level wrapper of `splitBar`. -/
def splitBarStr (s : String) : List String := (splitBar s.data).map (fun f => ⟨f⟩)

/-! ### Cache fingerprints (`hash_args`, `run.py` lines 22-25) -/

/-- Stands for `hashlib.md5(sig.encode("utf-8")).hexdigest()`: a fixed pure
function of the signature string.  The claims depend only on the fingerprint
being a deterministic function of the signature (equal signatures give equal
digests), so the digest is modelled as the signature itself. -/
def md5hex (s : String) : String := s

/-- Embeds `hash_args` (`run.py` lines 22-25).  Positional arguments arrive
already in their `f"{arg}"` string form; keyword arguments are `(key, value)`
pairs in their string forms.  The signature is the comma-join of the sorted
positional strings concatenated (with no separator, as in the source) with
the comma-join of the sorted `key=value` strings, keeping only keys other
than `"session"` and `"user_agent"`; the result is its MD5 digest. -/
def hash_args (args : List String) (kwargs : List (String × String)) : String :=
  md5hex (String.intercalate "," (sortStrs args) ++
    String.intercalate ","
      (sortStrs ((kwargs.filter
        (fun kv => kv.1 ≠ "session" && kv.1 ≠ "user_agent")).map
          (fun kv => kv.1 ++ "=" ++ kv.2))))

/-- String stand-in for the transport session object passed as the `session`
keyword argument. -/
def sessionRepr : String := "<ratelimit.LimiterSession>"

/-- Modelled from the spec: the `cachier` decorator (not under `src/`) maps an
invocation `crawl_url(url, user_agent, session=session)` to keyword form
before applying its `hash_func` — section 3 describes the fingerprint as built
from the call's arguments "excluding transport/session and identity fields
(e.g., the fetch client instance and a human-identifying string are excluded
from the fingerprint so that caching is stable across reruns)".  The
fingerprint of a `crawl_url` call is therefore `hash_args` of the keyword
pairs for `url`, `user_agent` and `session`. -/
def crawl_fp (url user_agent session : String) : String :=
  hash_args [] [("url", url), ("user_agent", user_agent), ("session", session)]

/-! ### The fetch cache and `crawl_url` (`run.py` lines 40-47) -/

/-- State of the memoized fetch layer:
* `cache` — the persisted cache, keyed by fingerprint (only non-failure
  values are ever stored, per `allow_none=False`);
* `calls` — how many underlying network requests have been issued per URL
  (used to drive call-indexed mock fetch functions);
* `netLog` — total number of network requests issued. -/
structure CrawlState where
  cache : String → Option String
  calls : String → Nat
  netLog : Nat

/-- A fresh process state: empty cache, no requests issued. -/
def freshCrawl : CrawlState := ⟨fun _ => none, fun _ => 0, 0⟩

/-- Embeds `crawl_url` (`run.py` lines 40-47) together with its `@cachier`
wrapper (Modelled from the spec, section 4.2: "if a non-failure value exists
for that fingerprint, returns it without invoking `compute`; otherwise
invokes `compute`, stores the result only if it is not `Failure` ..., and
returns it").  The underlying transport `net` is call-indexed per URL: the
`k`-th request for a URL returns `net url k` (`some content`, or `none` for
the failure signal that the `except` branch of the source turns into
`None`). -/
def crawl_url (net : String → Nat → Option String) (st : CrawlState)
    (url user_agent : String) : Option String × CrawlState :=
  match st.cache (crawl_fp url user_agent sessionRepr) with
  | some v => (some v, st)
  | none =>
    let k := st.calls url
    let bumped : String → Nat := fun u => if u = url then k + 1 else st.calls u
    match net url k with
    | some v =>
      (some v,
        { cache := fun f => if f = crawl_fp url user_agent sessionRepr then some v
                            else st.cache f,
          calls := bumped,
          netLog := st.netLog + 1 })
    | none => (none, { cache := st.cache, calls := bumped, netLog := st.netLog + 1 })

/-! ### Index download (`download_index`, `run.py` lines 49-71) -/

/-- One record of the data frame built by `download_index`: the stripped raw
index line and the document-relative index page URL derived from it. -/
structure IdxRecord where
  original : String
  index_html_url : String
deriving DecidableEq, Repr

/-- The derivation `line.rsplit("|", 1)[-1].replace(".txt", "-index.html")`
(`run.py` lines 66-68), applied to an already-stripped line. -/
def raw_index_html (line : String) : String :=
  pyReplace (lastFieldBar line) ".txt" "-index.html"

/-- Embeds `download_index` (`run.py` lines 49-71).  The zip-archive reading
of `master.idx` is an external capability: `unzipLines content` stands for the
decoded lines of the archived file; `itertools.islice(f, 11, None)` drops the
first 11 header lines.  Returns `none` when `crawl_url` failed.  (The
function's own `@cachier` wrapper is not modelled: the retry loop calls it
with `verbose_cache=True`, the force mode that re-runs the body, which is
exactly what this unmemoized model does on every call.) -/
def download_index (net : String → Nat → Option String)
    (unzipLines : String → List String) (ua : String) (st : CrawlState)
    (url : String) : Option (List IdxRecord) × CrawlState :=
  match crawl_url net st url ua with
  | (none, st') => (none, st')
  | (some content, st') =>
    (some (((unzipLines content).drop 11).map (fun line =>
      { original := pyStrip line, index_html_url := raw_index_html (pyStrip line) })),
     st')

/-! ### Index acquisition (`download_indices`, `run.py` lines 74-141) -/

/-- Outcome of `download_indices`:
* `invalidQuarter q` — the validation at lines 105-107 raised on quarter `q`;
* `blocked` — the unbounded retry loop (lines 127-139) was still running
  after the given number of passes;
* `emptyConcat` — `pd.concat` on an empty output list raised (no data rows);
* `ok dfs st` — every index resolved, with the collected data frames. -/
inductive IndicesResult where
  | invalidQuarter (q : Int)
  | blocked
  | emptyConcat
  | ok (dfs : List (List IdxRecord)) (st : CrawlState)

/-- Whether an `IndicesResult` is the raised invalid-quarter exception. -/
def IndicesResult.isInvalidQuarter : IndicesResult → Bool
  | .invalidQuarter _ => true
  | _ => false

/-- The membership test `quarter not in {1, 2, 3, 4}` (`run.py` line 106),
as the complement: `validQuarter q` holds when `q` is 1, 2, 3 or 4. -/
def validQuarter (q : Int) : Bool := q == 1 || q == 2 || q == 3 || q == 4

/-- The integer range `range(start_year, end_year + 1)` (`run.py` line 111). -/
def intRange (a b : Int) : List Int :=
  (List.range (b + 1 - a).toNat).map (fun i => a + (i : Int))

/-- The quarterly index URLs generated for one year (`run.py` lines 112-117):
the inner loop `break`s at the first quarter lying in the future relative to
`(nowYear, nowQuarter)`, hence the `takeWhile`. -/
def quarterUrls (year : Int) (quarters : List Int) (nowYear nowQuarter : Int) :
    List String :=
  (quarters.takeWhile (fun q => !(year == nowYear && q > nowQuarter))).map
    (fun q =>
      "https://www.sec.gov/Archives/edgar/full-index/" ++ toString year ++
        "/QTR" ++ toString q ++ "/master.zip")

/-- One pass over a list of pending index URLs (the body shared by the
initial for-loop, `run.py` lines 111-125, and the retry loop, lines 127-139):
each URL is fetched through `download_index`; failures are kept in order as
the still-pending list, successes are collected in order. -/
def indexFetchPass (net : String → Nat → Option String)
    (unzipLines : String → List String) (ua : String) (st : CrawlState) :
    List String → List (List IdxRecord) × List String × CrawlState
  | [] => ([], [], st)
  | u :: rest =>
    match download_index net unzipLines ua st u with
    | (none, st') =>
      let (dfs, failed, st'') := indexFetchPass net unzipLines ua st' rest
      (dfs, u :: failed, st'')
    | (some df, st') =>
      let (dfs, failed, st'') := indexFetchPass net unzipLines ua st' rest
      (df :: dfs, failed, st'')

/-- The unbounded retry loop of `download_indices` (`run.py` lines 127-139),
with an explicit pass budget: `none` means the pending list was still
non-empty after `fuel` passes (the loop is observably still running). -/
def indicesLoop (net : String → Nat → Option String)
    (unzipLines : String → List String) (ua : String) :
    Nat → CrawlState → List String → Option (List (List IdxRecord) × CrawlState)
  | 0, st, pending => if pending.isEmpty then some ([], st) else none
  | fuel + 1, st, pending =>
    if pending.isEmpty then some ([], st)
    else
      let (dfs, pending', st') := indexFetchPass net unzipLines ua st pending
      (indicesLoop net unzipLines ua fuel st' pending').map
        (fun r => (dfs ++ r.1, r.2))

/-- The fetch-and-retry core of `download_indices` applied to an explicit URL
list (`run.py` lines 109-139): the initial pass partitions URLs into resolved
data frames and a pending queue, then the unbounded loop retries the queue
until empty (or the pass budget runs out, modelling the still-running loop). -/
def acquireIndicesWithRetry (net : String → Nat → Option String)
    (unzipLines : String → List String) (ua : String) (fuel : Nat)
    (st : CrawlState) (urls : List String) :
    Option (List (List IdxRecord) × CrawlState) :=
  let (dfs, failed, st1) := indexFetchPass net unzipLines ua st urls
  (indicesLoop net unzipLines ua fuel st1 failed).map (fun r => (dfs ++ r.1, r.2))

/-- Embeds `download_indices` (`run.py` lines 74-141): default the quarters to
`[1, 2, 3, 4]`, raise on the first invalid quarter before any fetch, build the
year/quarter URLs (skipping future quarters of the current year), fetch with
unbounded retry, and concatenate the results (`pd.concat` raises on an empty
list, modelled by `emptyConcat`). -/
def download_indices (net : String → Nat → Option String)
    (unzipLines : String → List String) (ua : String) (fuel : Nat)
    (start_year end_year : Int) (quartersOpt : Option (List Int))
    (nowYear nowQuarter : Int) (st : CrawlState) : IndicesResult :=
  let quarters := quartersOpt.getD [1, 2, 3, 4]
  match quarters.find? (fun q => !validQuarter q) with
  | some q => .invalidQuarter q
  | none =>
    let urls := (intRange start_year end_year).flatMap
      (fun y => quarterUrls y quarters nowYear nowQuarter)
    match acquireIndicesWithRetry net unzipLines ua fuel st urls with
    | none => .blocked
    | some (dfs, st') => if dfs.isEmpty then .emptyConcat else .ok dfs st'

/-! ### Index filtering (`filter_indices`, `run.py` lines 145-171) -/

/-- One structured filing record produced by `filter_indices`. -/
structure FilingRecord where
  cik : String
  name : String
  type : String
  date : String
  index_text_url : String
  index_html_url : String
deriving DecidableEq, Repr

/-- The URL prefix added by `filter_indices` (`run.py` lines 161-168). -/
def ARCHIVES : String := "https://www.sec.gov/Archives/"

/-- Embeds `filter_indices` (`run.py` lines 145-171): split each `original`
line on `"|"` into the five named fields, prefix the two URL fields with the
archive host, and keep only rows whose type is in `filing_types`.  (A line
that does not split into exactly five fields would corrupt the expanded data
frame in pandas; such rows do not arise from the fixed-layout index file, and
the model drops them.) -/
def filter_indices (records : List IdxRecord) (filing_types : List String) :
    List FilingRecord :=
  records.filterMap (fun r =>
    match splitBarStr r.original with
    | [cik, nm, ty, date, itu] =>
      if filing_types.contains ty then
        some { cik := cik, name := nm, type := ty, date := date,
               index_text_url := ARCHIVES ++ itu,
               index_html_url := ARCHIVES ++ r.index_html_url }
      else none
    | _ => none)

/-- The `index_text_url` of a raw index line after `filter_indices`
(`run.py` lines 160-164). -/
def index_text_url_of_line (line : String) : String :=
  ARCHIVES ++ lastFieldBar line

/-- The `index_html_url` of a raw index line after `download_index` and
`filter_indices` (`run.py` lines 66-68 and 165-167): the archive prefix plus
the last pipe-field with `".txt"` replaced by `"-index.html"`. -/
def index_html_url_of_line (line : String) : String :=
  ARCHIVES ++ raw_index_html line

/-! ### Exhibit location (`parse_index`, `run.py` lines 174-214) -/

/-- One data row of the document-listing table, as unpacked at `run.py`
line 193: the text of the five cells, plus the first anchor of the
document-link cell when one exists (`href`, link text). -/
structure IndexRow where
  seq : String
  desc : String
  anchor : Option (String × String)
  doc_type : String
  size : String
deriving DecidableEq, Repr

/-- One exhibit record emitted by `parse_index` (`run.py` lines 201-211). -/
structure ExhibitRecord where
  index_html_url : String
  seq : String
  desc : String
  doc_link : String
  doc_type : String
  size : String
  filename : String
deriving DecidableEq, Repr

/-- The document-type test of `run.py` line 194: a row passes unless
`doc_type.text.upper() != "EX-10"` and it does not start with `"EX-10."`. -/
def docTypeMatches (t : String) : Bool :=
  upperStr t == "EX-10" || startsWithStr "EX-10." (upperStr t)

/-- The per-row body of the `parse_index` table loop (`run.py` lines
192-211): drop the row when the document type does not match, drop it when
the link cell has no anchor, otherwise build the exhibit record with the
host-prefixed document URL and the anchor text as filename. -/
def rowRecord (index_html_url : String) (r : IndexRow) : Option ExhibitRecord :=
  if !docTypeMatches r.doc_type then none
  else
    match r.anchor with
    | none => none
    | some (href, text) =>
      some { index_html_url := index_html_url, seq := r.seq, desc := r.desc,
             doc_link := "https://www.sec.gov" ++ href, doc_type := r.doc_type,
             size := r.size, filename := text }

/-- Embeds `parse_index` (`run.py` lines 174-214).  `soupTable content`
stands for `BeautifulSoup(content).find("table", {"summary": "Document Format
Files", "class": "tableFile"})`, giving the table's data rows (header row
already skipped) or `none` when the table is absent.  Returns `(none, md5)`
when the fetch failed or the table is missing, otherwise the matching rows
and the page key, the MD5 of the page URL.  (The function's own `@cachier`
wrapper is not modelled; no claim depends on it.) -/
def parse_index (net : String → Nat → Option String)
    (soupTable : String → Option (List IndexRow)) (st : CrawlState)
    (index_html_url ua : String) :
    (Option (List ExhibitRecord) × String) × CrawlState :=
  let md5 := md5hex index_html_url
  match crawl_url net st index_html_url ua with
  | (none, st') => ((none, md5), st')
  | (some content, st') =>
    match soupTable content with
    | none => ((none, md5), st')
    | some rows => ((some (rows.filterMap (rowRecord index_html_url)), md5), st')

/-! ### Exhibit download (`download_exhibits`, `run.py` lines 217-248) -/

/-- An exhibit record with its `doc_content` column (`none` = `NaN`). -/
structure ExhibitRow extends ExhibitRecord where
  doc_content : Option String
deriving DecidableEq, Repr

/-- The output directory, a map from file name to the persisted batch.
Writing a record stream and reading it back is modelled as exact storage. -/
abbrev ExhibitFS := String → Option (List ExhibitRow)

/-- The initial `records.assign(doc_content=records["doc_link"].map(...))`
(`run.py` lines 234-238): fetch each record's document URL in order through
the cached `crawl_url`, threading the fetch state. -/
def initialAssign (net : String → Nat → Option String) (ua : String)
    (st : CrawlState) : List ExhibitRecord → List ExhibitRow × CrawlState
  | [] => ([], st)
  | r :: rest =>
    let (c, st') := crawl_url net st r.doc_link ua
    let (rows, st'') := initialAssign net ua st' rest
    ({ toExhibitRecord := r, doc_content := c } :: rows, st'')

/-- One iteration of the retry for-loop body (`run.py` lines 242-245): fetch
the pending row's document URL, then assign the single result to the
`doc_content` of every row whose `index_html_url` equals the pending row's —
the `.loc` mask of the source selects on `index_html_url`, so the assignment
is not limited to the retried row. -/
def retryStep (net : String → Nat → Option String) (ua : String)
    (acc : List ExhibitRow × CrawlState) (row : ExhibitRow) :
    List ExhibitRow × CrawlState :=
  let (c, st') := crawl_url net acc.2 row.doc_link ua
  (acc.1.map (fun r =>
    if r.index_html_url == row.index_html_url then { r with doc_content := c }
    else r), st')

/-- One pass of the retry while-loop (`run.py` lines 240-245): iterate over
the snapshot of rows whose `doc_content` is absent (`iterrows` walks a copy
taken at the start of the pass) and apply `retryStep` for each. -/
def retryPass (net : String → Nat → Option String) (ua : String)
    (st : CrawlState) (exhibits : List ExhibitRow) :
    List ExhibitRow × CrawlState :=
  (exhibits.filter (fun r => r.doc_content.isNone)).foldl
    (retryStep net ua) (exhibits, st)

/-- The unbounded retry while-loop of `download_exhibits` (`run.py` lines
240-245) with an explicit pass budget: loop while some row's content is
absent; `none` means the loop was still running after `fuel` passes. -/
def retryLoop (net : String → Nat → Option String) (ua : String) :
    Nat → CrawlState → List ExhibitRow → Option (List ExhibitRow × CrawlState)
  | 0, st, exhibits =>
    if exhibits.any (fun r => r.doc_content.isNone) then none else some (exhibits, st)
  | fuel + 1, st, exhibits =>
    if exhibits.any (fun r => r.doc_content.isNone) then
      let (ex', st') := retryPass net ua st exhibits
      retryLoop net ua fuel st' ex'
    else some (exhibits, st)

/-- Embeds `download_exhibits` (`run.py` lines 217-248).  Empty input returns
`None` at once.  When the batch file for the page key already exists and
`skip` is set, the batch is loaded from the output directory; otherwise every
document is fetched once.  The retry loop then runs until no content is
absent, and only then is the batch written (`to_json`, line 247).  The outer
`Option` is the loop budget: `none` means the while-loop was still running —
observably blocked, with nothing written. -/
def download_exhibits (net : String → Nat → Option String) (ua : String)
    (fuel : Nat) (records : List ExhibitRecord) (md5 : String) (fs : ExhibitFS)
    (st : CrawlState) (skip : Bool) :
    Option (Option (List ExhibitRow) × ExhibitFS × CrawlState) :=
  if records.length = 0 then some (none, fs, st)
  else
    let fname := md5 ++ ".jsonl"
    let (exhibits, st1) :=
      match (if skip then fs fname else none) with
      | some batch => (batch, st)
      | none => initialAssign net ua st records
    match retryLoop net ua fuel st1 exhibits with
    | none => none
    | some (ex, st2) =>
      some (some ex, fun n => if n = fname then some ex else fs n, st2)

/-! ### Orchestrator (`run`, `run.py` lines 254-278) -/

/-- One iteration of the orchestrator's page loop (`run.py` lines 271-278):
locate the page's exhibits; skip the page (`continue`) when the locator gave
no table; otherwise download the batch and add the number of rows with
content to the running count.  `none` propagates a blocked download loop. -/
def runStep (net : String → Nat → Option String)
    (soupTable : String → Option (List IndexRow)) (fuel : Nat) (ua : String)
    (acc : CrawlState × ExhibitFS × Nat) (url : String) :
    Option (CrawlState × ExhibitFS × Nat) :=
  let ((recs, md5), st') := parse_index net soupTable acc.1 url ua
  match recs with
  | none => some (st', acc.2.1, acc.2.2)
  | some rs =>
    (download_exhibits net ua fuel rs md5 acc.2.1 st' true).map (fun out =>
      let found := match out.1 with
        | some ex => (ex.filter (fun r => r.doc_content.isSome)).length
        | none => 0
      (out.2.2, out.2.1, acc.2.2 + found))

/-- The orchestrator's loop over filing index pages (`run.py` lines 270-278;
the source caps the iteration at the first 50 URLs, which the caller encodes
in the list it passes). -/
def runLoop (net : String → Nat → Option String)
    (soupTable : String → Option (List IndexRow)) (fuel : Nat) (ua : String) :
    List String → (CrawlState × ExhibitFS × Nat) → Option (CrawlState × ExhibitFS × Nat)
  | [], acc => some acc
  | url :: rest, acc =>
    match runStep net soupTable fuel ua acc url with
    | none => none
    | some acc' => runLoop net soupTable fuel ua rest acc'

/-! ### Spec-side definitions and mock fetches used by the claims -/

/-- Following the spec's words for claim C9 ("`indexHtmlUrl` derived from
`indexTextUrl` by a suffix substitution", "only the trailing `.txt` ... is
replaced"): replace the trailing `".txt"` with `"-index.html"` and leave the
rest unchanged (identity when the string does not end in `".txt"`). -/
def suffixSubstSpec (url : String) : String :=
  if ".txt".data.isSuffixOf url.data then
    (⟨url.data.take (url.data.length - 4)⟩ : String) ++ "-index.html"
  else url

/-- The mock fetch of claim C3: for every URL, the first `N` requests fail
and every later request returns the non-failure value `val url`. -/
def mockNet (N : Nat) (val : String → String) : String → Nat → Option String :=
  fun url k => if k < N then none else some (val url)

/-- The `index_html_url` derivation of the spider implementation
(`exhibit_spider.py` line 54): `index_text_url.replace(".txt", "-index.html")`. -/
def spider_index_html_url (index_text_url : String) : String :=
  pyReplace index_text_url ".txt" "-index.html"

/-! ### Concrete instances used by individual claims -/

/-- Transport for the C1 scenario: the document at `"d1"` is permanently
unavailable (every request fails), `"d2"` and `"d3"` always succeed. -/
def c1Net : String → Nat → Option String :=
  fun url _ => if url = "d1" then none else if url = "d2" then some "c2" else some "c3"

/-- A batch of three exhibit records located on one filing index page (all
records of a `parse_index` batch share their `index_html_url`). -/
def c1Records : List ExhibitRecord :=
  [{ index_html_url := "U", seq := "1", desc := "ex a", doc_link := "d1",
     doc_type := "EX-10.1", size := "10", filename := "a.htm" },
   { index_html_url := "U", seq := "2", desc := "ex b", doc_link := "d2",
     doc_type := "EX-10.2", size := "11", filename := "b.htm" },
   { index_html_url := "U", seq := "3", desc := "ex c", doc_link := "d3",
     doc_type := "EX-10.3", size := "12", filename := "c.htm" }]

/-- Transport for the C4 scenario: the retried document `"d1"` now succeeds
with content `"c1"`. -/
def c4Net : String → Nat → Option String :=
  fun url _ => if url = "d1" then some "c1" else some "cX"

/-- Mid-loop batch state for the C4 scenario: row 1 (document `"d1"`) is
still unresolved, row 2 (document `"d2"`) already holds content `"cB"`. -/
def c4Rows : List ExhibitRow :=
  [{ index_html_url := "U", seq := "1", desc := "ex a", doc_link := "d1",
     doc_type := "EX-10.1", size := "10", filename := "a.htm", doc_content := none },
   { index_html_url := "U", seq := "2", desc := "ex b", doc_link := "d2",
     doc_type := "EX-10.2", size := "11", filename := "b.htm", doc_content := some "cB" }]

/-- A cache state holding the value `"v"` under the fingerprint of a
`crawl_url` call for URL `"u"` (the fingerprint is `"url=u"` whatever the
identity string was). -/
def c2CacheState : CrawlState :=
  { cache := fun f => if f = "url=u" then some "v" else none,
    calls := fun _ => 0, netLog := 0 }

/-- A complete persisted batch for the C8 scenario. -/
def c8Batch : List ExhibitRow :=
  [{ index_html_url := "U", seq := "1", desc := "ex a", doc_link := "d1",
     doc_type := "EX-10.1", size := "10", filename := "a.htm", doc_content := some "c1" },
   { index_html_url := "U", seq := "2", desc := "ex b", doc_link := "d2",
     doc_type := "EX-10.2", size := "11", filename := "b.htm", doc_content := some "c2" }]

/-- An output directory already holding the complete batch file `"K.jsonl"`. -/
def c8FS : ExhibitFS := fun n => if n = "K.jsonl" then some c8Batch else none

/-- Records of the C3 witness batch. -/
def c3Records : List ExhibitRecord :=
  [{ index_html_url := "U", seq := "1", desc := "ex a", doc_link := "d1",
     doc_type := "EX-10.1", size := "10", filename := "a.htm" },
   { index_html_url := "U", seq := "2", desc := "ex b", doc_link := "d2",
     doc_type := "EX-10.2", size := "11", filename := "b.htm" }]

/-- Records of the C8 witness batch (the located records whose batch file
already exists on disk). -/
def c8Records : List ExhibitRecord :=
  [{ index_html_url := "U", seq := "1", desc := "ex a", doc_link := "d1",
     doc_type := "EX-10.1", size := "10", filename := "a.htm" },
   { index_html_url := "U", seq := "2", desc := "ex b", doc_link := "d2",
     doc_type := "EX-10.2", size := "11", filename := "b.htm" }]

/-- A raw index line of the real EDGAR shape, used by the C9 witness. -/
def c9Line : String :=
  "0000320193|Apple Inc|10-K|2023-11-03|edgar/data/320193/0000320193-23-000106.txt"

/-! ## Helper lemmas -/

/-- The fingerprint of a `crawl_url` call reduces to the string `"url=" ++ url`:
the `session` and `user_agent` keyword pairs are filtered out of the signature. -/
theorem crawl_fp_eq (u a s : String) : crawl_fp u a s = "url=" ++ u := rfl

/-- Distinct URLs have distinct `crawl_url` fingerprints. -/
theorem crawl_fp_inj {u v a b s t : String}
    (h : crawl_fp u a s = crawl_fp v b t) : u = v := by
  rw [crawl_fp_eq, crawl_fp_eq] at h
  have hd : ("url=" ++ u).data = ("url=" ++ v).data := by rw [h]
  simp [String.data_append] at hd
  exact String.ext hd

/-- A cached value is returned without touching the state. -/
theorem crawl_url_hit {net : String → Nat → Option String} {st : CrawlState}
    {url ua v : String} (h : st.cache (crawl_fp url ua sessionRepr) = some v) :
    crawl_url net st url ua = (some v, st) := by
  unfold crawl_url; rw [h]

/-- A cache miss whose transport request fails: the failure is returned, the
cache is left unchanged, the per-URL call count and the request log grow. -/
theorem crawl_url_miss_fail {net : String → Nat → Option String}
    {st : CrawlState} {url ua : String}
    (hc : st.cache (crawl_fp url ua sessionRepr) = none)
    (hn : net url (st.calls url) = none) :
    crawl_url net st url ua =
      (none, { cache := st.cache,
               calls := fun u => if u = url then st.calls url + 1 else st.calls u,
               netLog := st.netLog + 1 }) := by
  simp only [crawl_url, hc, hn]

/-- A cache miss whose transport request succeeds: the value is returned and
stored under the call's fingerprint. -/
theorem crawl_url_miss_succ {net : String → Nat → Option String}
    {st : CrawlState} {url ua v : String}
    (hc : st.cache (crawl_fp url ua sessionRepr) = none)
    (hn : net url (st.calls url) = some v) :
    crawl_url net st url ua =
      (some v,
       { cache := fun f => if f = crawl_fp url ua sessionRepr then some v
                           else st.cache f,
         calls := fun u => if u = url then st.calls url + 1 else st.calls u,
         netLog := st.netLog + 1 }) := by
  simp only [crawl_url, hc, hn]

/-- When no row's content is absent, the retry while-loop exits at once,
whatever its pass budget. -/
theorem retryLoop_done {net : String → Nat → Option String} {ua : String}
    (fuel : Nat) {st : CrawlState} {ex : List ExhibitRow}
    (h : ex.any (fun r => r.doc_content.isNone) = false) :
    retryLoop net ua fuel st ex = some (ex, st) := by
  cases fuel <;> simp [retryLoop, h]

/-- `replaceAux` on an empty string is the empty string, whatever the fuel. -/
theorem replaceAux_nil (pat rep : List Char) (fuel : Nat) :
    replaceAux pat rep fuel [] = [] := by
  cases fuel <;> rfl

/-- If the pattern occurs in `p ++ pat` only as the terminal occurrence, the
Python-style replace rewrites exactly that occurrence. -/
theorem replaceAux_terminal (pat rep : List Char) (hpat : pat ≠ []) :
    ∀ (p : List Char) (fuel : Nat), (p ++ pat).length ≤ fuel →
      (∀ i < p.length, pat.isPrefixOf ((p ++ pat).drop i) = false) →
      replaceAux pat rep fuel (p ++ pat) = p ++ rep := by
  intro p
  induction p with
  | nil =>
    intro fuel hf _
    obtain ⟨c, rest, rfl⟩ : ∃ c rest, pat = c :: rest := by
      cases pat with
      | nil => exact absurd rfl hpat
      | cons c r => exact ⟨c, r, rfl⟩
    simp only [List.nil_append, List.length_cons] at hf ⊢
    cases fuel with
    | zero => omega
    | succ f =>
      show replaceAux (c :: rest) rep (f + 1) (c :: rest) = rep
      unfold replaceAux
      rw [if_pos (by simp [List.isPrefixOf_iff_prefix])]
      rw [show List.drop (c :: rest).length (c :: rest) = [] from List.drop_length _]
      rw [replaceAux_nil]
      simp
  | cons c p ih =>
    intro fuel hf hocc
    have hf1 : 1 ≤ fuel := by simp at hf; omega
    obtain ⟨f, rfl⟩ : ∃ f, fuel = f + 1 := ⟨fuel - 1, by omega⟩
    have h0 : pat.isPrefixOf (c :: (p ++ pat)) = false := by
      have := hocc 0 (by simp)
      simpa using this
    show replaceAux pat rep (f + 1) (c :: (p ++ pat)) = c :: (p ++ rep)
    unfold replaceAux
    rw [if_neg (by simp [h0])]
    congr 1
    refine ih f ?_ ?_
    · simp at hf ⊢; omega
    · intro i hi
      have := hocc (i + 1) (by simp; omega)
      simpa using this

/-! ## Claim theorems -/

/-- C2: the cache fingerprint computed by `hash_args` for a `crawl_url` call
is a pure deterministic function of the logical arguments that excludes the
transport session and the identity string: the fingerprints of two calls with
the same URL but different identity strings (and different sessions)
coincide, and when the cache holds a value under the first call's
fingerprint, the second call returns that value with the state untouched — a
cache hit, with no request issued. -/
theorem C2_fingerprint_excludes_identity (url ua1 ua2 s1 s2 : String) :
    crawl_fp url ua1 s1 = crawl_fp url ua2 s2
    ∧ (∀ (net : String → Nat → Option String) (st : CrawlState) (v : String),
        st.cache (crawl_fp url ua1 s1) = some v →
        crawl_url net st url ua2 = (some v, st)) := by
  constructor
  · rw [crawl_fp_eq, crawl_fp_eq]
  · intro net st v h
    rw [crawl_fp_eq] at h
    exact crawl_url_hit (by rw [crawl_fp_eq]; exact h)

/-- Witness for C2 at a concrete input: the cache holds `"v"` under the
fingerprint written with identity `"agentA"`, and the call with identity
`"agentB"` is a hit. -/
theorem C2_fingerprint_excludes_identity_witness :
    c2CacheState.cache (crawl_fp "u" "agentA" "sessionA") = some "v"
    ∧ crawl_url (fun _ _ => none) c2CacheState "u" "agentB" = (some "v", c2CacheState) :=
  ⟨by decide,
   (C2_fingerprint_excludes_identity "u" "agentA" "agentB" "sessionA" "sessionB").2
     (fun _ _ => none) c2CacheState "v" (by decide)⟩

/-- C7: a failed computation is never cached.  On a cache miss whose request
fails, `crawl_url` returns the failure, leaves the cache unchanged, and a
subsequent call with the same arguments issues a fresh request (the request
log grows again) instead of serving a cached failure. -/
theorem C7_failures_never_cached (net : String → Nat → Option String)
    (st : CrawlState) (url ua : String)
    (h1 : st.cache (crawl_fp url ua sessionRepr) = none)
    (h2 : net url (st.calls url) = none) :
    (crawl_url net st url ua).1 = none
    ∧ (crawl_url net st url ua).2.cache = st.cache
    ∧ (crawl_url net st url ua).2.netLog = st.netLog + 1
    ∧ (crawl_url net (crawl_url net st url ua).2 url ua).2.netLog = st.netLog + 2 := by
  rw [crawl_url_miss_fail h1 h2]
  refine ⟨rfl, rfl, rfl, ?_⟩
  simp only [crawl_url, h1]
  cases hx : net url (st.calls url + 1) <;> simp [hx]

/-- Witness for C7 at a concrete input: a transport that always fails is
recomputed on the second call (two requests logged, nothing cached). -/
theorem C7_failures_never_cached_witness :
    (crawl_url (fun _ _ => none) freshCrawl "u" "ua").1 = none
    ∧ (crawl_url (fun _ _ => none) freshCrawl "u" "ua").2.cache = freshCrawl.cache
    ∧ (crawl_url (fun _ _ => none) freshCrawl "u" "ua").2.netLog = freshCrawl.netLog + 1
    ∧ (crawl_url (fun _ _ => none)
        ((crawl_url (fun _ _ => none) freshCrawl "u" "ua").2) "u" "ua").2.netLog
      = freshCrawl.netLog + 2 :=
  C7_failures_never_cached (fun _ _ => none) freshCrawl "u" "ua" rfl rfl

/-- C5 counterexample: a table row whose document-type cell is exactly
`"EX-10"` (so the type predicate holds) but whose link cell has no anchor is
dropped by the locator, refuting "kept if and only if the type matches". -/
theorem C5_counterexample_anchorless_row :
    docTypeMatches "EX-10" = true
    ∧ rowRecord "u" { seq := "1", desc := "d", anchor := none,
                      doc_type := "EX-10", size := "10" } = none
    ∧ (parse_index (fun _ _ => some "body")
        (fun _ => some [{ seq := "1", desc := "d", anchor := none,
                          doc_type := "EX-10", size := "10" }])
        freshCrawl "u" "ua").1
      = (some [], md5hex "u") := by decide

/-- C5 amended: a table row is kept exactly when its link cell has an anchor
and its uppercased document-type cell equals `"EX-10"` or starts with
`"EX-10."`; on the type predicate alone, the cell values `"EX-10"`,
`"EX-10.1"`, `"EX-10.99"` match while `"EX-101"` and `"EX-2"` do not. -/
theorem C5_amended_keep_iff_type_and_anchor :
    (∀ url r, (rowRecord url r).isSome = (r.anchor.isSome && docTypeMatches r.doc_type))
    ∧ docTypeMatches "EX-10" = true
    ∧ docTypeMatches "EX-10.1" = true
    ∧ docTypeMatches "EX-10.99" = true
    ∧ docTypeMatches "EX-101" = false
    ∧ docTypeMatches "EX-2" = false := by
  refine ⟨?_, by decide, by decide, by decide, by decide, by decide⟩
  intro url r
  unfold rowRecord
  cases h : docTypeMatches r.doc_type <;>
    rcases ha : r.anchor with _ | ⟨href, text⟩ <;> simp [h, ha]

/-- C9 counterexample: `str.replace` rewrites every occurrence of `".txt"`,
not only the trailing one.  On a line whose URL field contains `".txt"` twice
the derived `index_html_url` (both in `run.py` and in the spider) differs
from the suffix-only substitution of the spec's words. -/
theorem C9_counterexample_replace_not_suffix_only :
    index_html_url_of_line "0|Acme|10-K|2023-01-01|x.txt/y.txt"
      = "https://www.sec.gov/Archives/x-index.html/y-index.html"
    ∧ suffixSubstSpec (index_text_url_of_line "0|Acme|10-K|2023-01-01|x.txt/y.txt")
      = "https://www.sec.gov/Archives/x.txt/y-index.html"
    ∧ spider_index_html_url (index_text_url_of_line "0|Acme|10-K|2023-01-01|x.txt/y.txt")
      = "https://www.sec.gov/Archives/x-index.html/y-index.html"
    ∧ index_html_url_of_line "0|Acme|10-K|2023-01-01|x.txt/y.txt"
      ≠ suffixSubstSpec (index_text_url_of_line "0|Acme|10-K|2023-01-01|x.txt/y.txt") := by
  decide

/-- C9 amended: the derivation replaces every leftmost occurrence of
`".txt"`; when `".txt"` occurs in the URL field only as its trailing suffix
(as in real EDGAR filenames), the result is exactly the suffix substitution —
the prefix is unchanged and the trailing `".txt"` becomes `"-index.html"`,
both for the `run.py` derivation and for the spider's. -/
theorem C9_amended_suffix_substitution (line : String) (p : List Char)
    (h1 : (lastFieldBar line).data = p ++ ".txt".data)
    (h2 : ∀ i < p.length, ".txt".data.isPrefixOf ((p ++ ".txt".data).drop i) = false) :
    index_html_url_of_line line = ARCHIVES ++ (⟨p ++ "-index.html".data⟩ : String)
    ∧ spider_index_html_url (⟨p ++ ".txt".data⟩ : String)
      = (⟨p ++ "-index.html".data⟩ : String) := by
  have hrw : replaceAux ".txt".data "-index.html".data (p ++ ".txt".data).length
      (p ++ ".txt".data) = p ++ "-index.html".data :=
    replaceAux_terminal ".txt".data "-index.html".data (by decide) p
      (p ++ ".txt".data).length (le_refl _) h2
  constructor
  · unfold index_html_url_of_line raw_index_html pyReplace
    rw [h1, hrw]
  · unfold spider_index_html_url pyReplace
    exact congrArg (fun l => (⟨l⟩ : String)) hrw

/-- Witness for C9's amended statement on a real-shaped EDGAR index line. -/
theorem C9_amended_suffix_substitution_witness :
    index_html_url_of_line c9Line
      = ARCHIVES ++
        (⟨"edgar/data/320193/0000320193-23-000106".data ++ "-index.html".data⟩ : String)
    ∧ spider_index_html_url
        (⟨"edgar/data/320193/0000320193-23-000106".data ++ ".txt".data⟩ : String)
      = (⟨"edgar/data/320193/0000320193-23-000106".data ++ "-index.html".data⟩ : String) :=
  C9_amended_suffix_substitution c9Line "edgar/data/320193/0000320193-23-000106".data
    (by decide) (by decide)

/-- C10: a quarters list containing any value outside `{1, 2, 3, 4}` makes
`download_indices` raise the invalid-quarter exception before any fetch is
performed (the result does not depend on the transport at all), while a list
of valid quarters never trips this validation. -/
theorem C10_quarter_validation (net net2 : String → Nat → Option String)
    (uz : String → List String) (ua : String) (fuel : Nat) (sy ey : Int)
    (qs : List Int) (nowY nowQ : Int) (st : CrawlState) :
    ((∃ q ∈ qs, validQuarter q = false) →
      (download_indices net uz ua fuel sy ey (some qs) nowY nowQ st).isInvalidQuarter = true
      ∧ download_indices net uz ua fuel sy ey (some qs) nowY nowQ st
          = download_indices net2 uz ua fuel sy ey (some qs) nowY nowQ st)
    ∧ ((∀ q ∈ qs, validQuarter q = true) →
      (download_indices net uz ua fuel sy ey (some qs) nowY nowQ st).isInvalidQuarter = false) := by
  constructor
  · intro h
    have hs : (qs.find? (fun q => !validQuarter q)).isSome := by
      refine List.find?_isSome.mpr ?_
      obtain ⟨q, hq, hv⟩ := h
      exact ⟨q, hq, by simp [hv]⟩
    obtain ⟨q0, hq0⟩ := Option.isSome_iff_exists.mp hs
    constructor <;>
      simp [download_indices, hq0, IndicesResult.isInvalidQuarter]
  · intro h
    have hn : qs.find? (fun q => !validQuarter q) = none := by
      refine List.find?_eq_none.mpr ?_
      intro q hq
      simp [h q hq]
    simp only [download_indices, Option.getD_some, hn]
    rcases hacq : acquireIndicesWithRetry net uz ua fuel st
        ((intRange sy ey).flatMap (fun y => quarterUrls y qs nowY nowQ)) with _ | ⟨dfs, st2⟩
    · simp [IndicesResult.isInvalidQuarter]
    · by_cases hdfs : dfs.isEmpty = true <;> simp [hdfs, IndicesResult.isInvalidQuarter]

/-- Witness for C10: quarters `[1, 5]` raise (independently of the
transport), quarters `[1, 2]` pass the validation. -/
theorem C10_quarter_validation_witness :
    ((download_indices (fun _ _ => none) (fun _ => []) "ua" 1 2020 2020
        (some [1, 5]) 2026 4 freshCrawl).isInvalidQuarter = true
      ∧ download_indices (fun _ _ => none) (fun _ => []) "ua" 1 2020 2020
          (some [1, 5]) 2026 4 freshCrawl
        = download_indices (fun _ _ => some "z") (fun _ => []) "ua" 1 2020 2020
            (some [1, 5]) 2026 4 freshCrawl)
    ∧ (download_indices (fun _ _ => none) (fun _ => []) "ua" 1 2020 2020
        (some [1, 2]) 2026 4 freshCrawl).isInvalidQuarter = false :=
  ⟨(C10_quarter_validation (fun _ _ => none) (fun _ _ => some "z") (fun _ => [])
      "ua" 1 2020 2020 [1, 5] 2026 4 freshCrawl).1 (by decide),
   (C10_quarter_validation (fun _ _ => none) (fun _ _ => some "z") (fun _ => [])
      "ua" 1 2020 2020 [1, 2] 2026 4 freshCrawl).2 (by decide)⟩

/-- C6: when the fetched filing index page has no document-listing table, the
locator returns the no-records outcome with the page key, the orchestrator
step leaves the output directory and the exhibit count untouched (no
download is attempted, nothing is raised in the model's total semantics), and
the page loop proceeds to the remaining pages. -/
theorem C6_missing_table_page_skipped (net : String → Nat → Option String)
    (soupTable : String → Option (List IndexRow)) (st : CrawlState)
    (url ua c : String) (fs : ExhibitFS) (cnt fuel : Nat) (rest : List String)
    (h1 : (crawl_url net st url ua).1 = some c)
    (h2 : soupTable c = none) :
    (parse_index net soupTable st url ua).1 = (none, md5hex url)
    ∧ runStep net soupTable fuel ua (st, fs, cnt) url
        = some ((parse_index net soupTable st url ua).2, fs, cnt)
    ∧ runLoop net soupTable fuel ua (url :: rest) (st, fs, cnt)
        = runLoop net soupTable fuel ua rest
            ((parse_index net soupTable st url ua).2, fs, cnt) := by
  rcases hcu : crawl_url net st url ua with ⟨r, st2⟩
  rw [hcu] at h1
  simp at h1
  subst h1
  have hp : parse_index net soupTable st url ua = ((none, md5hex url), st2) := by
    simp only [parse_index, hcu, h2]
  have hstep : runStep net soupTable fuel ua (st, fs, cnt) url = some (st2, fs, cnt) := by
    simp only [runStep, hp]
  refine ⟨by rw [hp], by rw [hstep, hp], ?_⟩
  simp only [runLoop, hstep, hp]

/-- Witness for C6 at a concrete input: a page that fetches fine but has no
`"Document Format Files"` table. -/
theorem C6_missing_table_page_skipped_witness :
    (parse_index (fun _ _ => some "body") (fun _ => none) freshCrawl "u" "ua").1
      = (none, md5hex "u")
    ∧ runStep (fun _ _ => some "body") (fun _ => none) 1 "ua"
        (freshCrawl, (fun _ => none), 0) "u"
        = some ((parse_index (fun _ _ => some "body") (fun _ => none)
            freshCrawl "u" "ua").2, (fun _ => none), 0)
    ∧ runLoop (fun _ _ => some "body") (fun _ => none) 1 "ua" ["u", "w"]
        (freshCrawl, (fun _ => none), 0)
        = runLoop (fun _ _ => some "body") (fun _ => none) 1 "ua" ["w"]
            ((parse_index (fun _ _ => some "body") (fun _ => none)
              freshCrawl "u" "ua").2, (fun _ => none), 0) :=
  C6_missing_table_page_skipped (fun _ _ => some "body") (fun _ => none)
    freshCrawl "u" "ua" "body" (fun _ => none) 0 1 ["w"] (by decide) rfl

/-- C8: with `skip` enabled and a complete batch file already present for the
page key, `download_exhibits` loads and returns that batch with the fetch
state untouched (zero network calls), and the rewrite of the batch file is
byte-identical — the output directory is unchanged at every name. -/
theorem C8_skip_existing_batch_no_fetch (net : String → Nat → Option String)
    (ua : String) (fuel : Nat) (records : List ExhibitRecord) (md5 : String)
    (fs : ExhibitFS) (st : CrawlState) (batch : List ExhibitRow)
    (hne : records ≠ [])
    (hfs : fs (md5 ++ ".jsonl") = some batch)
    (hcomplete : ∀ r ∈ batch, r.doc_content.isSome = true) :
    ∃ fs', download_exhibits net ua fuel records md5 fs st true
        = some (some batch, fs', st)
      ∧ ∀ nm, fs' nm = fs nm := by
  have hlen : ¬ records.length = 0 := by
    simpa [List.length_eq_zero] using hne
  have hany : batch.any (fun r => r.doc_content.isNone) = false := by
    rw [List.any_eq_false]
    intro r hr
    have := hcomplete r hr
    simp [Option.isNone_eq_false_iff, ← Option.isSome_iff_ne_none, this]
  refine ⟨fun n => if n = md5 ++ ".jsonl" then some batch else fs n, ?_, ?_⟩
  · simp [download_exhibits, hlen, hfs, retryLoop_done fuel hany]
  · intro nm
    by_cases hnm : nm = md5 ++ ".jsonl"
    · simp [hnm, hfs]
    · show (if nm = md5 ++ ".jsonl" then some batch else fs nm) = fs nm
      rw [if_neg hnm]

/-- Witness for C8 at a concrete input: the existing complete file
`"K.jsonl"` is returned as-is, the directory is unchanged at the batch name
and elsewhere, and no network request is logged. -/
theorem C8_skip_existing_batch_no_fetch_witness :
    (download_exhibits (fun _ _ => none) "ua" 5 c8Records "K" c8FS freshCrawl true).map
        (fun out => (out.1, out.2.1 "K.jsonl", out.2.1 "other.jsonl", out.2.2.netLog))
      = some (some c8Batch, some c8Batch, none, 0) := by
  obtain ⟨fs', heq, hpt⟩ :=
    C8_skip_existing_batch_no_fetch (fun _ _ => none) "ua" 5 c8Records "K" c8FS
      freshCrawl c8Batch (by decide) (by decide) (by decide)
  rw [heq]
  show some (some c8Batch, fs' "K.jsonl", fs' "other.jsonl", freshCrawl.netLog)
      = some (some c8Batch, some c8Batch, none, 0)
  rw [hpt "K.jsonl", hpt "other.jsonl"]
  rfl

/-- C1 (code bug): document `"d1"` of the three-record batch is permanently
unavailable — every transport request for it fails — yet `download_exhibits`
terminates and persists the batch file, because the retry assignment
(`run.py` lines 243-245) selects rows by `index_html_url`, which every record
of the batch shares, so one successful fetch overwrites every row's content
(here all three rows end with content `"c3"`).  The claim's guarantee that no
output file is ever written in this situation fails on the code. -/
theorem C1_bug_batch_persisted_despite_permanent_failure :
    (∀ k, c1Net "d1" k = none)
    ∧ (download_exhibits c1Net "ua" 3 c1Records "K" (fun _ => none) freshCrawl true).map
        (fun out => (out.1.map (fun ex => ex.map (fun r => r.doc_content)),
                     (out.2.1 "K.jsonl").isSome))
      = some (some [some "c3", some "c3", some "c3"], true) :=
  ⟨fun _ => rfl, by decide⟩

/-- C4 (code bug): in a two-row batch sharing one `index_html_url`, row 2
already holds content `"cB"` and only row 1 is pending; one retry pass
fetches row 1's document (content `"c1"`) and, because the `.loc` mask
selects on `index_html_url`, overwrites row 2's already-present content as
well — both rows end with `"c1"`, refuting "never partially overwritten once
present". -/
theorem C4_bug_present_content_overwritten_by_retry :
    c4Rows.map (fun r => r.doc_content) = [none, some "cB"]
    ∧ (c4Rows.filter (fun r => r.doc_content.isNone)).map (fun r => r.doc_link) = ["d1"]
    ∧ (retryPass c4Net "ua" freshCrawl c4Rows).1.map (fun r => r.doc_content)
      = [some "c1", some "c1"] := by decide

/-! ## Convergence machinery for claim C3 -/

/-- Under the C3 mock, a request for a URL whose call count is below `N`
fails. -/
theorem mockNet_lt {N : Nat} (val : String → String) {k : Nat} (h : k < N)
    (url : String) : mockNet N val url k = none := by
  simp [mockNet, h]

/-- Under the C3 mock, a request for a URL whose call count has reached `N`
succeeds. -/
theorem mockNet_ge {N : Nat} (val : String → String) {k : Nat} (h : N ≤ k)
    (url : String) : mockNet N val url k = some (val url) := by
  simp [mockNet, Nat.not_lt.mpr h]

/-- A fetch pass over pending URLs whose uniform call count is still below
`N`: every URL fails again, the pending list is reproduced unchanged, the
cache is untouched and each pending URL's call count grows by one. -/
theorem indexFetchPass_allfail (N : Nat) (val : String → String)
    (uz : String → List String) (ua : String) (c : Nat) (hcN : c < N) :
    ∀ (urls : List String) (st : CrawlState), urls.Nodup →
      (∀ u ∈ urls, st.cache (crawl_fp u ua sessionRepr) = none) →
      (∀ u ∈ urls, st.calls u = c) →
      ∃ st', indexFetchPass (mockNet N val) uz ua st urls = ([], urls, st')
        ∧ st'.cache = st.cache
        ∧ (∀ u ∈ urls, st'.calls u = c + 1)
        ∧ (∀ u, u ∉ urls → st'.calls u = st.calls u) := by
  intro urls
  induction urls with
  | nil =>
    intro st _ _ _
    exact ⟨st, rfl, rfl, by simp, fun u _ => rfl⟩
  | cons u rest ih =>
    intro st hnd hcache hcalls
    have hmem : u ∈ u :: rest := by simp
    have hnet : mockNet N val u (st.calls u) = none := by
      rw [hcalls u hmem]; exact mockNet_lt val hcN u
    have hcu := crawl_url_miss_fail (hcache u hmem) hnet
    have hdi : download_index (mockNet N val) uz ua st u =
        (none, { cache := st.cache,
                 calls := fun w => if w = u then st.calls u + 1 else st.calls w,
                 netLog := st.netLog + 1 }) := by
      simp only [download_index, hcu]
    have hu_rest : u ∉ rest := (List.nodup_cons.mp hnd).1
    obtain ⟨st', hpass, hc, hca, hout⟩ := ih
      { cache := st.cache,
        calls := fun w => if w = u then st.calls u + 1 else st.calls w,
        netLog := st.netLog + 1 }
      (List.nodup_cons.mp hnd).2
      (fun v hv => hcache v (by simp [hv]))
      (fun v hv => by
        have hvne : v ≠ u := fun h => hu_rest (h ▸ hv)
        simp [hvne, hcalls v (by simp [hv])])
    refine ⟨st', ?_, by rw [hc], ?_, ?_⟩
    · simp only [indexFetchPass, hdi, hpass]
    · intro v hv
      rcases List.mem_cons.mp hv with rfl | hv'
      · rw [hout v hu_rest]
        simp [hcalls v hmem]
      · exact hca v hv'
    · intro w hw
      have hw1 : w ∉ rest := fun h => hw (by simp [h])
      have hw2 : w ≠ u := fun h => hw (by simp [h])
      rw [hout w hw1]
      simp [hw2]

/-- A fetch pass over pending URLs whose uniform call count has reached `N`:
every URL resolves, the pending list empties and one data frame per URL is
collected. -/
theorem indexFetchPass_allsucc (N : Nat) (val : String → String)
    (uz : String → List String) (ua : String) (c : Nat) (hcN : N ≤ c) :
    ∀ (urls : List String) (st : CrawlState), urls.Nodup →
      (∀ u ∈ urls, st.cache (crawl_fp u ua sessionRepr) = none) →
      (∀ u ∈ urls, st.calls u = c) →
      ∃ dfs st', indexFetchPass (mockNet N val) uz ua st urls = (dfs, [], st')
        ∧ dfs.length = urls.length := by
  intro urls
  induction urls with
  | nil =>
    intro st _ _ _
    exact ⟨[], st, rfl, rfl⟩
  | cons u rest ih =>
    intro st hnd hcache hcalls
    have hmem : u ∈ u :: rest := by simp
    have hnet : mockNet N val u (st.calls u) = some (val u) := by
      rw [hcalls u hmem]; exact mockNet_ge val hcN u
    have hcu := crawl_url_miss_succ (hcache u hmem) hnet
    have hdi : download_index (mockNet N val) uz ua st u =
        (some (((uz (val u)).drop 11).map (fun line =>
          { original := pyStrip line, index_html_url := raw_index_html (pyStrip line) })),
         { cache := fun f => if f = crawl_fp u ua sessionRepr then some (val u)
                             else st.cache f,
           calls := fun w => if w = u then st.calls u + 1 else st.calls w,
           netLog := st.netLog + 1 }) := by
      simp only [download_index, hcu]
    have hu_rest : u ∉ rest := (List.nodup_cons.mp hnd).1
    obtain ⟨dfs, st', hpass, hlen⟩ := ih
      { cache := fun f => if f = crawl_fp u ua sessionRepr then some (val u)
                          else st.cache f,
        calls := fun w => if w = u then st.calls u + 1 else st.calls w,
        netLog := st.netLog + 1 }
      (List.nodup_cons.mp hnd).2
      (fun v hv => by
        have hvne : v ≠ u := fun h => hu_rest (h ▸ hv)
        have hfp : crawl_fp v ua sessionRepr ≠ crawl_fp u ua sessionRepr :=
          fun h => hvne (crawl_fp_inj h)
        show (if crawl_fp v ua sessionRepr = crawl_fp u ua sessionRepr
              then some (val u) else st.cache (crawl_fp v ua sessionRepr)) = none
        rw [if_neg hfp]
        exact hcache v (by simp [hv]))
      (fun v hv => by
        have hvne : v ≠ u := fun h => hu_rest (h ▸ hv)
        simp [hvne, hcalls v (by simp [hv])])
    refine ⟨(((uz (val u)).drop 11).map (fun line =>
      { original := pyStrip line,
        index_html_url := raw_index_html (pyStrip line) })) :: dfs, st',
      ?_, by simp [hlen]⟩
    simp only [indexFetchPass, hdi, hpass]

/-- The retry loop on an empty pending queue returns at once. -/
theorem indicesLoop_nil (net : String → Nat → Option String)
    (uz : String → List String) (ua : String) (fuel : Nat) (st : CrawlState) :
    indicesLoop net uz ua fuel st [] = some ([], st) := by
  cases fuel <;> rfl

/-- Convergence of the index retry loop under the C3 mock: when every pending
URL has been requested `c` times, a pass budget reaching `N` suffices for the
loop to terminate with one data frame per pending URL. -/
theorem indicesLoop_conv (N : Nat) (val : String → String)
    (uz : String → List String) (ua : String) :
    ∀ (fuel c : Nat) (st : CrawlState) (pending : List String),
      pending.Nodup →
      (∀ u ∈ pending, st.cache (crawl_fp u ua sessionRepr) = none) →
      (∀ u ∈ pending, st.calls u = c) →
      (pending = [] ∨ (1 ≤ fuel ∧ N ≤ c + (fuel - 1))) →
      ∃ dfs st', indicesLoop (mockNet N val) uz ua fuel st pending = some (dfs, st')
        ∧ dfs.length = pending.length := by
  intro fuel
  induction fuel with
  | zero =>
    intro c st pending _ _ _ hcond
    have hp : pending = [] := by
      rcases hcond with h | ⟨h1, _⟩
      · exact h
      · omega
    subst hp
    exact ⟨[], st, rfl, rfl⟩
  | succ fuel ih =>
    intro c st pending hnd hcache hcalls hcond
    rcases hp : pending with _ | ⟨u, rest⟩
    · exact ⟨[], st, by simp [indicesLoop], rfl⟩
    · subst hp
      have hne : ((u :: rest).isEmpty) = false := rfl
      by_cases hcN : c < N
      · obtain ⟨st', hpass, hc, hca, _⟩ :=
          indexFetchPass_allfail N val uz ua c hcN (u :: rest) st hnd hcache hcalls
        obtain ⟨dfs2, st2, hloop, hlen2⟩ := ih (c + 1) st' (u :: rest) hnd
          (fun v hv => by rw [hc]; exact hcache v hv)
          hca
          (Or.inr (by
            rcases hcond with h | ⟨h1, h2⟩
            · simp at h
            · constructor <;> omega))
        refine ⟨[] ++ dfs2, st2, ?_, by simpa using hlen2⟩
        simp only [indicesLoop, hne, hpass, hloop, Option.map_some]
        rfl
      · obtain ⟨dfs, st', hpass, hlen⟩ :=
          indexFetchPass_allsucc N val uz ua c (Nat.le_of_not_lt hcN) (u :: rest)
            st hnd hcache hcalls
        refine ⟨dfs ++ [], st', ?_, by simpa using hlen⟩
        simp [indicesLoop, hne, hpass, indicesLoop_nil]

/-- The fetch-and-retry core converges under the C3 mock from a fresh state:
with pass budget `N` for the retry loop (so at most `N + 1` passes in total,
counting the initial pass), every URL resolves. -/
theorem acquireIndices_conv (N : Nat) (val : String → String)
    (uz : String → List String) (ua : String) (urls : List String)
    (hnd : urls.Nodup) :
    ∃ dfs st', acquireIndicesWithRetry (mockNet N val) uz ua N freshCrawl urls
        = some (dfs, st') ∧ dfs.length = urls.length := by
  have hcache : ∀ u ∈ urls, freshCrawl.cache (crawl_fp u ua sessionRepr) = none :=
    fun _ _ => rfl
  have hcalls : ∀ u ∈ urls, freshCrawl.calls u = 0 := fun _ _ => rfl
  rcases Nat.eq_zero_or_pos N with hN | hN
  · subst hN
    obtain ⟨dfs, st', hpass, hlen⟩ :=
      indexFetchPass_allsucc 0 val uz ua 0 (Nat.le_refl 0) urls freshCrawl
        hnd hcache hcalls
    refine ⟨dfs ++ [], st', ?_, by simpa using hlen⟩
    unfold acquireIndicesWithRetry
    rw [hpass]
    simp [indicesLoop_nil]
  · obtain ⟨st', hpass, hc, hca, _⟩ :=
      indexFetchPass_allfail N val uz ua 0 hN urls freshCrawl hnd hcache hcalls
    obtain ⟨dfs2, st2, hloop, hlen2⟩ :=
      indicesLoop_conv N val uz ua N 1 st' urls hnd
        (fun v hv => by rw [hc]; exact hcache v hv)
        hca
        (Or.inr ⟨hN, by omega⟩)
    refine ⟨[] ++ dfs2, st2, ?_, by simpa using hlen2⟩
    unfold acquireIndicesWithRetry
    rw [hpass]
    simp [hloop]

/-- Re-assigning an absent content is the identity on the row. -/
theorem setContent_none_self {r : ExhibitRow} (h : r.doc_content = none) :
    { r with doc_content := none } = r := by
  cases r with
  | mk rec dc =>
    simp only at h
    rw [h]

/-- When every row's content is absent, the retry assignment of a failed
fetch (content `none`) leaves the row list unchanged. -/
theorem assign_none_id (u : String) :
    ∀ (ex : List ExhibitRow), (∀ r ∈ ex, r.doc_content = none) →
      ex.map (fun r => if r.index_html_url == u
        then { r with doc_content := none } else r) = ex := by
  intro ex
  induction ex with
  | nil => intro _; rfl
  | cons r rest ih =>
    intro hall
    have hr : ({ r with doc_content := none } : ExhibitRow) = r :=
      setContent_none_self (hall r (by simp))
    have htail := ih (fun x hx => hall x (by simp [hx]))
    by_cases hu : (r.index_html_url == u) = true
    · rw [List.map_cons, htail, if_pos hu, hr]
    · rw [List.map_cons, htail, if_neg hu]

/-- The initial per-record assignment when the uniform call count is still
below `N`: every fetch fails, the rows are the records with content absent,
the cache is untouched and each document URL's call count grows by one. -/
theorem initialAssign_allfail (N : Nat) (val : String → String) (ua : String)
    (c : Nat) (hcN : c < N) :
    ∀ (records : List ExhibitRecord) (st : CrawlState),
      (records.map (fun r => r.doc_link)).Nodup →
      (∀ r ∈ records, st.cache (crawl_fp r.doc_link ua sessionRepr) = none) →
      (∀ r ∈ records, st.calls r.doc_link = c) →
      ∃ st', initialAssign (mockNet N val) ua st records
          = (records.map (fun r => { toExhibitRecord := r, doc_content := none }), st')
        ∧ st'.cache = st.cache
        ∧ (∀ r ∈ records, st'.calls r.doc_link = c + 1)
        ∧ (∀ u, u ∉ records.map (fun r => r.doc_link) → st'.calls u = st.calls u) := by
  intro records
  induction records with
  | nil =>
    intro st _ _ _
    exact ⟨st, rfl, rfl, by simp, fun u _ => rfl⟩
  | cons r rest ih =>
    intro st hnd hcache hcalls
    have hmem : r ∈ r :: rest := by simp
    have hnet : mockNet N val r.doc_link (st.calls r.doc_link) = none := by
      rw [hcalls r hmem]; exact mockNet_lt val hcN _
    have hcu := crawl_url_miss_fail (hcache r hmem) hnet
    have hlink_rest : r.doc_link ∉ rest.map (fun x => x.doc_link) :=
      (List.nodup_cons.mp hnd).1
    obtain ⟨st', hrec, hc, hca, hout⟩ := ih
      { cache := st.cache,
        calls := fun w => if w = r.doc_link then st.calls r.doc_link + 1 else st.calls w,
        netLog := st.netLog + 1 }
      (List.nodup_cons.mp hnd).2
      (fun v hv => hcache v (by simp [hv]))
      (fun v hv => by
        have hvne : v.doc_link ≠ r.doc_link := by
          intro h
          exact hlink_rest (h ▸ List.mem_map_of_mem (fun x => x.doc_link) hv)
        simp [hvne, hcalls v (by simp [hv])])
    refine ⟨st', ?_, by rw [hc], ?_, ?_⟩
    · simp only [initialAssign, hcu, hrec, List.map_cons]
    · intro v hv
      rcases List.mem_cons.mp hv with rfl | hv'
      · rw [hout v.doc_link hlink_rest]
        simp [hcalls v hmem]
      · exact hca v hv'
    · intro w hw
      have hw1 : w ∉ rest.map (fun x => x.doc_link) := fun h => hw (by simp at h ⊢; tauto)
      have hw2 : w ≠ r.doc_link := fun h => hw (by simp [h])
      rw [hout w hw1]
      simp [hw2]

/-- The initial per-record assignment when the uniform call count has already
reached `N` (in particular `N = 0`): every fetch succeeds and every row gets
its own document's content. -/
theorem initialAssign_allsucc (N : Nat) (val : String → String) (ua : String)
    (c : Nat) (hcN : N ≤ c) :
    ∀ (records : List ExhibitRecord) (st : CrawlState),
      (records.map (fun r => r.doc_link)).Nodup →
      (∀ r ∈ records, st.cache (crawl_fp r.doc_link ua sessionRepr) = none) →
      (∀ r ∈ records, st.calls r.doc_link = c) →
      ∃ st', initialAssign (mockNet N val) ua st records
          = (records.map (fun r =>
              { toExhibitRecord := r, doc_content := some (val r.doc_link) }), st') := by
  intro records
  induction records with
  | nil =>
    intro st _ _ _
    exact ⟨st, rfl⟩
  | cons r rest ih =>
    intro st hnd hcache hcalls
    have hmem : r ∈ r :: rest := by simp
    have hnet : mockNet N val r.doc_link (st.calls r.doc_link) = some (val r.doc_link) := by
      rw [hcalls r hmem]; exact mockNet_ge val hcN _
    have hcu := crawl_url_miss_succ (hcache r hmem) hnet
    have hlink_rest : r.doc_link ∉ rest.map (fun x => x.doc_link) :=
      (List.nodup_cons.mp hnd).1
    obtain ⟨st', hrec⟩ := ih
      { cache := fun f => if f = crawl_fp r.doc_link ua sessionRepr
                          then some (val r.doc_link) else st.cache f,
        calls := fun w => if w = r.doc_link then st.calls r.doc_link + 1 else st.calls w,
        netLog := st.netLog + 1 }
      (List.nodup_cons.mp hnd).2
      (fun v hv => by
        have hvne : v.doc_link ≠ r.doc_link := by
          intro h
          exact hlink_rest (h ▸ List.mem_map_of_mem (fun x => x.doc_link) hv)
        have hfp : crawl_fp v.doc_link ua sessionRepr
            ≠ crawl_fp r.doc_link ua sessionRepr := fun h => hvne (crawl_fp_inj h)
        show (if crawl_fp v.doc_link ua sessionRepr = crawl_fp r.doc_link ua sessionRepr
              then some (val r.doc_link)
              else st.cache (crawl_fp v.doc_link ua sessionRepr)) = none
        rw [if_neg hfp]
        exact hcache v (by simp [hv]))
      (fun v hv => by
        have hvne : v.doc_link ≠ r.doc_link := by
          intro h
          exact hlink_rest (h ▸ List.mem_map_of_mem (fun x => x.doc_link) hv)
        simp [hvne, hcalls v (by simp [hv])])
    refine ⟨st', ?_⟩
    simp only [initialAssign, hcu, hrec, List.map_cons]

/-- A retry pass over a snapshot of pending rows whose uniform call count is
still below `N`: every fetch fails again, the row list is unchanged (each
assignment re-writes `none` over `none`), the cache is untouched and each
snapshot document's call count grows by one. -/
theorem retryFold_allfail (N : Nat) (val : String → String) (ua : String)
    (c : Nat) (hcN : c < N) :
    ∀ (snap ex : List ExhibitRow) (st : CrawlState),
      (snap.map (fun r => r.doc_link)).Nodup →
      (∀ r ∈ snap, st.cache (crawl_fp r.doc_link ua sessionRepr) = none) →
      (∀ r ∈ snap, st.calls r.doc_link = c) →
      (∀ r ∈ ex, r.doc_content = none) →
      ∃ st', snap.foldl (retryStep (mockNet N val) ua) (ex, st) = (ex, st')
        ∧ st'.cache = st.cache
        ∧ (∀ r ∈ snap, st'.calls r.doc_link = c + 1)
        ∧ (∀ u, u ∉ snap.map (fun r => r.doc_link) → st'.calls u = st.calls u) := by
  intro snap
  induction snap with
  | nil =>
    intro ex st _ _ _ _
    exact ⟨st, rfl, rfl, by simp, fun u _ => rfl⟩
  | cons p rest ih =>
    intro ex st hnd hcache hcalls hall
    have hmem : p ∈ p :: rest := by simp
    have hnet : mockNet N val p.doc_link (st.calls p.doc_link) = none := by
      rw [hcalls p hmem]; exact mockNet_lt val hcN _
    have hcu := crawl_url_miss_fail (hcache p hmem) hnet
    have hstep : retryStep (mockNet N val) ua (ex, st) p =
        (ex, { cache := st.cache,
               calls := fun w => if w = p.doc_link then st.calls p.doc_link + 1
                                 else st.calls w,
               netLog := st.netLog + 1 }) := by
      simp only [retryStep, hcu]
      rw [assign_none_id p.index_html_url ex hall]
    have hlink_rest : p.doc_link ∉ rest.map (fun x => x.doc_link) :=
      (List.nodup_cons.mp hnd).1
    obtain ⟨st', hfold, hc, hca, hout⟩ := ih ex
      { cache := st.cache,
        calls := fun w => if w = p.doc_link then st.calls p.doc_link + 1 else st.calls w,
        netLog := st.netLog + 1 }
      (List.nodup_cons.mp hnd).2
      (fun v hv => hcache v (by simp [hv]))
      (fun v hv => by
        have hvne : v.doc_link ≠ p.doc_link := by
          intro h
          exact hlink_rest (h ▸ List.mem_map_of_mem (fun x => x.doc_link) hv)
        simp [hvne, hcalls v (by simp [hv])])
      hall
    refine ⟨st', ?_, by rw [hc], ?_, ?_⟩
    · rw [List.foldl_cons, hstep, hfold]
    · intro v hv
      rcases List.mem_cons.mp hv with rfl | hv'
      · rw [hout v.doc_link hlink_rest]
        simp [hcalls v hmem]
      · exact hca v hv'
    · intro w hw
      have hw1 : w ∉ rest.map (fun x => x.doc_link) := fun h => hw (by simp at h ⊢; tauto)
      have hw2 : w ≠ p.doc_link := fun h => hw (by simp [h])
      rw [hout w hw1]
      simp [hw2]

/-- A retry pass over a snapshot of pending rows whose uniform call count has
reached `N`: every fetch succeeds and, because each snapshot row's assignment
covers its whole `index_html_url` group, every row whose group appears in the
snapshot ends with content present. -/
theorem retryFold_allsucc (N : Nat) (val : String → String) (ua : String)
    (c : Nat) (hcN : N ≤ c) :
    ∀ (snap ex : List ExhibitRow) (st : CrawlState),
      (snap.map (fun r => r.doc_link)).Nodup →
      (∀ r ∈ snap, st.cache (crawl_fp r.doc_link ua sessionRepr) = none) →
      (∀ r ∈ snap, st.calls r.doc_link = c) →
      (∀ r ∈ ex, r.doc_content.isSome = true ∨
        (r.index_html_url ∈ snap.map (fun p => p.index_html_url)
          ∧ r.doc_content = none)) →
      ∃ ex' st', snap.foldl (retryStep (mockNet N val) ua) (ex, st) = (ex', st')
        ∧ ex'.length = ex.length
        ∧ ∀ r ∈ ex', r.doc_content.isSome = true := by
  intro snap
  induction snap with
  | nil =>
    intro ex st _ _ _ hinv
    refine ⟨ex, st, rfl, rfl, ?_⟩
    intro r hr
    rcases hinv r hr with h | ⟨h, _⟩
    · exact h
    · simp at h
  | cons p rest ih =>
    intro ex st hnd hcache hcalls hinv
    have hmem : p ∈ p :: rest := by simp
    have hnet : mockNet N val p.doc_link (st.calls p.doc_link)
        = some (val p.doc_link) := by
      rw [hcalls p hmem]; exact mockNet_ge val hcN _
    have hcu := crawl_url_miss_succ (hcache p hmem) hnet
    have hlink_rest : p.doc_link ∉ rest.map (fun x => x.doc_link) :=
      (List.nodup_cons.mp hnd).1
    have hstep : retryStep (mockNet N val) ua (ex, st) p =
        (ex.map (fun r => if r.index_html_url == p.index_html_url
            then { r with doc_content := some (val p.doc_link) } else r),
         { cache := fun f => if f = crawl_fp p.doc_link ua sessionRepr
                             then some (val p.doc_link) else st.cache f,
           calls := fun w => if w = p.doc_link then st.calls p.doc_link + 1
                             else st.calls w,
           netLog := st.netLog + 1 }) := by
      simp only [retryStep, hcu]
    obtain ⟨ex2, st2, hfold, hlen, hsome⟩ := ih
      (ex.map (fun r => if r.index_html_url == p.index_html_url
        then { r with doc_content := some (val p.doc_link) } else r))
      { cache := fun f => if f = crawl_fp p.doc_link ua sessionRepr
                          then some (val p.doc_link) else st.cache f,
        calls := fun w => if w = p.doc_link then st.calls p.doc_link + 1
                          else st.calls w,
        netLog := st.netLog + 1 }
      (List.nodup_cons.mp hnd).2
      (fun v hv => by
        have hvne : v.doc_link ≠ p.doc_link := by
          intro h
          exact hlink_rest (h ▸ List.mem_map_of_mem (fun x => x.doc_link) hv)
        have hfp : crawl_fp v.doc_link ua sessionRepr
            ≠ crawl_fp p.doc_link ua sessionRepr := fun h => hvne (crawl_fp_inj h)
        show (if crawl_fp v.doc_link ua sessionRepr = crawl_fp p.doc_link ua sessionRepr
              then some (val p.doc_link)
              else st.cache (crawl_fp v.doc_link ua sessionRepr)) = none
        rw [if_neg hfp]
        exact hcache v (by simp [hv]))
      (fun v hv => by
        have hvne : v.doc_link ≠ p.doc_link := by
          intro h
          exact hlink_rest (h ▸ List.mem_map_of_mem (fun x => x.doc_link) hv)
        simp [hvne, hcalls v (by simp [hv])])
      (by
        intro r' hr'
        obtain ⟨r, hr, hr'eq⟩ := List.mem_map.mp hr'
        by_cases hurl : (r.index_html_url == p.index_html_url) = true
        · left
          rw [← hr'eq, if_pos hurl]
          rfl
        · rcases hinv r hr with h | ⟨hu, hn⟩
          · left
            rw [← hr'eq, if_neg hurl]
            exact h
          · right
            rw [← hr'eq, if_neg hurl]
            have hune : r.index_html_url ≠ p.index_html_url := by
              intro h
              exact hurl (by simp [h])
            refine ⟨?_, hn⟩
            rw [List.map_cons] at hu
            rcases List.mem_cons.mp hu with h | h
            · exact absurd h hune
            · exact h)
    refine ⟨ex2, st2, ?_, by rw [hlen, List.length_map], hsome⟩
    rw [List.foldl_cons, hstep, hfold]

/-- Rows that all hold content have no pending entry. -/
theorem any_isNone_false {ex : List ExhibitRow}
    (h : ∀ r ∈ ex, r.doc_content.isSome = true) :
    ex.any (fun r => r.doc_content.isNone) = false := by
  rw [List.any_eq_false]
  intro r hr
  have hs := h r hr
  cases hc : r.doc_content with
  | none => rw [hc] at hs; simp at hs
  | some v => simp [hc]

/-- A non-empty list of rows with content absent has a pending entry. -/
theorem any_isNone_true {ex : List ExhibitRow} (hne : ex ≠ [])
    (h : ∀ r ∈ ex, r.doc_content = none) :
    ex.any (fun r => r.doc_content.isNone) = true := by
  cases ex with
  | nil => exact absurd rfl hne
  | cons r rest =>
    have := h r (by simp)
    simp [List.any_cons, this]

/-- Convergence of the exhibit retry while-loop under the C3 mock: starting
from rows that are all unresolved with uniform call count `c`, a pass budget
reaching `N` suffices for the loop to terminate with every row resolved. -/
theorem retryLoop_conv (N : Nat) (val : String → String) (ua : String) :
    ∀ (fuel c : Nat) (st : CrawlState) (ex : List ExhibitRow),
      (ex.map (fun r => r.doc_link)).Nodup →
      (∀ r ∈ ex, st.cache (crawl_fp r.doc_link ua sessionRepr) = none) →
      (∀ r ∈ ex, st.calls r.doc_link = c) →
      (∀ r ∈ ex, r.doc_content = none) →
      (ex = [] ∨ (1 ≤ fuel ∧ N ≤ c + (fuel - 1))) →
      ∃ ex' st', retryLoop (mockNet N val) ua fuel st ex = some (ex', st')
        ∧ ex'.length = ex.length
        ∧ ∀ r ∈ ex', r.doc_content.isSome = true := by
  intro fuel
  induction fuel with
  | zero =>
    intro c st ex _ _ _ _ hcond
    have hex : ex = [] := by
      rcases hcond with h | ⟨h1, _⟩
      · exact h
      · omega
    subst hex
    exact ⟨[], st, by simp [retryLoop], rfl, by simp⟩
  | succ fuel ih =>
    intro c st ex hnd hcache hcalls hall hcond
    rcases hex : ex with _ | ⟨r0, rest0⟩
    · exact ⟨[], st, by simp [retryLoop], rfl, by simp⟩
    · subst hex
      have hany : ((r0 :: rest0).any (fun r => r.doc_content.isNone)) = true :=
        any_isNone_true (by simp) hall
      have hfilter : (r0 :: rest0).filter (fun r => r.doc_content.isNone)
          = r0 :: rest0 := by
        rw [List.filter_eq_self]
        intro r hr
        simp [hall r hr]
      by_cases hcN : c < N
      · obtain ⟨st1, hfold, hc, hca, _⟩ :=
          retryFold_allfail N val ua c hcN (r0 :: rest0) (r0 :: rest0) st
            hnd hcache hcalls hall
        obtain ⟨ex2, st2, hloop, hlen2, hsome2⟩ := ih (c + 1) st1 (r0 :: rest0)
          hnd
          (fun v hv => by rw [hc]; exact hcache v hv)
          hca
          hall
          (Or.inr (by
            rcases hcond with h | ⟨h1, h2⟩
            · simp at h
            · constructor <;> omega))
        refine ⟨ex2, st2, ?_, hlen2, hsome2⟩
        simp only [retryLoop, hany, if_pos, retryPass, hfilter, hfold, hloop]
      · obtain ⟨ex2, st2, hfold, hlen2, hsome2⟩ :=
          retryFold_allsucc N val ua c (Nat.le_of_not_lt hcN) (r0 :: rest0)
            (r0 :: rest0) st hnd hcache hcalls
            (fun r hr => Or.inr ⟨List.mem_map_of_mem (fun p => p.index_html_url) hr,
              hall r hr⟩)
        refine ⟨ex2, st2, ?_, hlen2, hsome2⟩
        have hdone := @retryLoop_done (mockNet N val) ua fuel st2 ex2
          (any_isNone_false hsome2)
        simp only [retryLoop, hany, if_pos, retryPass, hfilter, hfold, hdone]

/-- `download_exhibits` on a fresh state with an empty output directory:
the initial assignment runs, then the retry loop, then the write. -/
theorem download_exhibits_fresh_eq (net : String → Nat → Option String)
    (ua : String) (fuel : Nat) (records : List ExhibitRecord) (md5 : String)
    (hlen : records.length ≠ 0) :
    download_exhibits net ua fuel records md5 (fun _ => none) freshCrawl true
      = match retryLoop net ua fuel (initialAssign net ua freshCrawl records).2
          (initialAssign net ua freshCrawl records).1 with
        | none => none
        | some (ex, st2) => some (some ex,
            fun n => if n = md5 ++ ".jsonl" then some ex
                     else (fun _ => none : ExhibitFS) n, st2) := by
  unfold download_exhibits
  rw [if_neg hlen]
  rfl

/-- Convergence of `download_exhibits` under the C3 mock from a fresh state:
with loop pass budget `N` (at most `N + 1` passes counting the initial
assignment), the call returns with every row resolved. -/
theorem download_exhibits_conv (N : Nat) (val : String → String)
    (ua md5 : String) (records : List ExhibitRecord)
    (hnd : (records.map (fun r => r.doc_link)).Nodup)
    (hne : records ≠ []) :
    ∃ ex fs2 st2, download_exhibits (mockNet N val) ua N records md5
        (fun _ => none) freshCrawl true = some (some ex, fs2, st2)
      ∧ ex.length = records.length
      ∧ ∀ r ∈ ex, r.doc_content.isSome = true := by
  have hlen : records.length ≠ 0 := by
    simpa [List.length_eq_zero] using hne
  have hcache : ∀ r ∈ records,
      freshCrawl.cache (crawl_fp r.doc_link ua sessionRepr) = none := fun _ _ => rfl
  have hcalls : ∀ r ∈ records, freshCrawl.calls r.doc_link = 0 := fun _ _ => rfl
  rw [download_exhibits_fresh_eq (mockNet N val) ua N records md5 hlen]
  rcases Nat.eq_zero_or_pos N with hN | hN
  · subst hN
    obtain ⟨st1, hrec⟩ := initialAssign_allsucc 0 val ua 0 (Nat.le_refl 0)
      records freshCrawl hnd hcache hcalls
    rw [hrec]
    have hsome : ∀ r ∈ records.map (fun r =>
        ({ toExhibitRecord := r, doc_content := some (val r.doc_link) } : ExhibitRow)),
        r.doc_content.isSome = true := by
      intro r hr
      obtain ⟨q, _, hq⟩ := List.mem_map.mp hr
      rw [← hq]
      rfl
    have hdone := @retryLoop_done (mockNet 0 val) ua 0 st1 _
      (any_isNone_false hsome)
    rw [hdone]
    exact ⟨_, _, st1, rfl, by simp, hsome⟩
  · obtain ⟨st1, hrec, hc, hca, _⟩ := initialAssign_allfail N val ua 0 hN
      records freshCrawl hnd hcache hcalls
    rw [hrec]
    have hrows_links : (records.map (fun r =>
        ({ toExhibitRecord := r, doc_content := none } : ExhibitRow))).map
          (fun r => r.doc_link) = records.map (fun r => r.doc_link) := by
      rw [List.map_map]
      rfl
    obtain ⟨ex2, st2, hloop, hlen2, hsome2⟩ := retryLoop_conv N val ua N 1 st1
      (records.map (fun r => ({ toExhibitRecord := r, doc_content := none } : ExhibitRow)))
      (by rw [hrows_links]; exact hnd)
      (fun v hv => by
        rw [hc]
        obtain ⟨q, hq, hqe⟩ := List.mem_map.mp hv
        rw [← hqe]
        exact hcache q hq)
      (fun v hv => by
        obtain ⟨q, hq, hqe⟩ := List.mem_map.mp hv
        rw [← hqe]
        exact hca q hq)
      (fun v hv => by
        obtain ⟨q, _, hqe⟩ := List.mem_map.mp hv
        rw [← hqe])
      (Or.inr ⟨hN, by omega⟩)
    rw [hloop]
    exact ⟨ex2, _, st2, rfl, by rw [hlen2, List.length_map], hsome2⟩

/-- C3: under a mock transport that fails the first `N` requests for every
item and succeeds from then on, both retry loops converge: the index
acquisition (initial pass plus retry loop, `run.py` lines 109-139) resolves
every URL within pass budget `N` after the initial pass — at most `N + 1`
passes in total — and `download_exhibits` (`run.py` lines 217-248) likewise
returns with every record's content present within `N` retry passes after the
initial assignment. -/
theorem C3_unbounded_retry_convergence (N : Nat) (val : String → String)
    (uz : String → List String) (ua md5 : String) (urls : List String)
    (records : List ExhibitRecord)
    (hnd : urls.Nodup)
    (hnd2 : (records.map (fun r => r.doc_link)).Nodup)
    (hne : records ≠ []) :
    (∃ dfs st', acquireIndicesWithRetry (mockNet N val) uz ua N freshCrawl urls
        = some (dfs, st') ∧ dfs.length = urls.length)
    ∧ (∃ ex fs2 st2, download_exhibits (mockNet N val) ua N records md5
          (fun _ => none) freshCrawl true = some (some ex, fs2, st2)
        ∧ ex.length = records.length
        ∧ ∀ r ∈ ex, r.doc_content.isSome = true) :=
  ⟨acquireIndices_conv N val uz ua urls hnd,
   download_exhibits_conv N val ua md5 records hnd2 hne⟩

/-- Witness for C3 at a concrete input: `N = 2`, two index URLs and a batch
of two exhibit records. -/
theorem C3_unbounded_retry_convergence_witness :
    (∃ dfs st', acquireIndicesWithRetry (mockNet 2 (fun u => "v" ++ u))
        (fun _ => []) "ua" 2 freshCrawl ["u1", "u2"] = some (dfs, st')
      ∧ dfs.length = (["u1", "u2"] : List String).length)
    ∧ (∃ ex fs2 st2, download_exhibits (mockNet 2 (fun u => "v" ++ u)) "ua" 2
          c3Records "K" (fun _ => none) freshCrawl true = some (some ex, fs2, st2)
        ∧ ex.length = c3Records.length
        ∧ ∀ r ∈ ex, r.doc_content.isSome = true) :=
  C3_unbounded_retry_convergence 2 (fun u => "v" ++ u) (fun _ => []) "ua" "K"
    ["u1", "u2"] c3Records (by decide) (by decide) (by decide)
